import Mathlib

/-!
Verification of the Mersenne-prime searcher (src/main.rs).

The program has three pure functions:
* `mod_mersenne(n: &BigUint, p: u64) -> BigUint` — reduction modulo `2^p - 1`
  by repeated split-and-add;
* `is_mersenne_prime(p: u64, verbose: bool) -> bool` — the Lucas–Lehmer test;
* `is_prime(n: u64) -> bool` — trial division by 2, 3 and `6k ± 1`.

They are embedded below over `ℕ` (BigUint is an arbitrary-precision
non-negative integer, so `ℕ` is exact for it).  Rust `while` loops become
fuel-based structural recursions; a fuel of `n` is proved sufficient where
needed, so the embeddings compute by kernel reduction.
-/

namespace Mersenne

/-- One iteration of the splitting loop of `mod_mersenne` in src/main.rs:
`high = n >> p; low = n & modulus; n = high + low` with
`modulus = (1 << p) - 1`. -/
def split_step (n p : ℕ) : ℕ := (n >>> p) + (n &&& (2 ^ p - 1))

/-- The `while n.bits() > p` loop of `mod_mersenne`, with explicit fuel.
For a `BigUint`, `n.bits() > p` holds exactly when `2 ^ p ≤ n`
(`Nat.lt_size`), and that form of the guard is used so that the kernel can
evaluate the loop.  For `p = 0` the Rust loop does not terminate on any
`n > 0`; the spec leaves `p = 0` undefined.  Every lemma below assumes
`1 ≤ p`, and fuel `n` is proved sufficient in that case
(`mod_mersenne_loop_lt`). -/
def mod_mersenne_loop (p : ℕ) : ℕ → ℕ → ℕ
  | 0, n => n
  | fuel + 1, n => if 2 ^ p ≤ n then mod_mersenne_loop p fuel (split_step n p) else n

/-- Embedding of `mod_mersenne` from src/main.rs: run the splitting loop,
then normalize the all-ones representative `2^p - 1` to `0`. -/
def mod_mersenne (n p : ℕ) : ℕ :=
  let modulus := 2 ^ p - 1
  let r := mod_mersenne_loop p n n
  if r = modulus then 0 else r

theorem split_step_eq_div_add_mod (n p : ℕ) :
    split_step n p = n / 2 ^ p + n % 2 ^ p := by
  rw [split_step, Nat.shiftRight_eq_div_pow, Nat.and_pow_two_sub_one_eq_mod]

theorem split_step_lt (n p : ℕ) (hp : 1 ≤ p) (h : 2 ^ p ≤ n) :
    split_step n p < n := by
  rw [split_step_eq_div_add_mod]
  have hq : 1 ≤ n / 2 ^ p := (Nat.one_le_div_iff (Nat.pos_pow_of_pos p (by norm_num))).mpr h
  have hmul : 2 * (n / 2 ^ p) ≤ 2 ^ p * (n / 2 ^ p) :=
    Nat.mul_le_mul_right _ (by calc 2 = 2 ^ 1 := rfl
                                 _ ≤ 2 ^ p := Nat.pow_le_pow_right (by norm_num) hp)
  have hdm := Nat.div_add_mod n (2 ^ p)
  omega

theorem split_step_modEq (n p : ℕ) :
    split_step n p ≡ n [MOD 2 ^ p - 1] := by
  rw [split_step_eq_div_add_mod]
  have hle : n / 2 ^ p + n % 2 ^ p ≤ n := by
    have hdm := Nat.div_add_mod n (2 ^ p)
    have h1 : n / 2 ^ p ≤ 2 ^ p * (n / 2 ^ p) :=
      Nat.le_mul_of_pos_left _ (Nat.pos_pow_of_pos p (by norm_num))
    omega
  refine (Nat.modEq_iff_dvd' hle).mpr ?_
  refine ⟨n / 2 ^ p, ?_⟩
  have hdm := Nat.div_add_mod n (2 ^ p)
  have hsub : (2 ^ p - 1) * (n / 2 ^ p) = 2 ^ p * (n / 2 ^ p) - n / 2 ^ p := by
    rw [Nat.sub_mul, one_mul]
  have h1 : n / 2 ^ p ≤ 2 ^ p * (n / 2 ^ p) :=
    Nat.le_mul_of_pos_left _ (Nat.pos_pow_of_pos p (by norm_num))
  omega

theorem mod_mersenne_loop_modEq (p : ℕ) :
    ∀ fuel n, mod_mersenne_loop p fuel n ≡ n [MOD 2 ^ p - 1] := by
  intro fuel
  induction fuel with
  | zero => intro n; exact Nat.ModEq.refl n
  | succ fuel ih =>
    intro n
    rw [mod_mersenne_loop]
    by_cases h : 2 ^ p ≤ n
    · rw [if_pos h]
      exact (ih (split_step n p)).trans (split_step_modEq n p)
    · rw [if_neg h]

theorem mod_mersenne_loop_lt (p : ℕ) (hp : 1 ≤ p) :
    ∀ fuel n, n ≤ fuel → mod_mersenne_loop p fuel n < 2 ^ p := by
  intro fuel
  induction fuel with
  | zero =>
    intro n hn
    have : n = 0 := Nat.le_zero.mp hn
    subst this
    exact Nat.pos_pow_of_pos p (by norm_num)
  | succ fuel ih =>
    intro n hn
    rw [mod_mersenne_loop]
    by_cases h : 2 ^ p ≤ n
    · rw [if_pos h]
      exact ih _ (by have := split_step_lt n p hp h; omega)
    · rw [if_neg h]
      omega

theorem mod_mersenne_loop_of_lt (p fuel n : ℕ) (h : n < 2 ^ p) :
    mod_mersenne_loop p fuel n = n := by
  cases fuel with
  | zero => rfl
  | succ fuel => rw [mod_mersenne_loop, if_neg (by omega)]

theorem one_le_two_pow_sub_one (p : ℕ) (hp : 1 ≤ p) : 1 ≤ 2 ^ p - 1 := by
  have : 2 ^ 1 ≤ 2 ^ p := Nat.pow_le_pow_right (by norm_num) hp
  omega

theorem mod_mersenne_modEq (n p : ℕ) :
    mod_mersenne n p ≡ n [MOD 2 ^ p - 1] := by
  rw [mod_mersenne]
  by_cases h : mod_mersenne_loop p n n = 2 ^ p - 1
  · simp only [if_pos h]
    have h0 : (0 : ℕ) ≡ 2 ^ p - 1 [MOD 2 ^ p - 1] :=
      (Nat.modEq_iff_dvd' (Nat.zero_le _)).mpr (by simp)
    exact (h0.trans (h ▸ mod_mersenne_loop_modEq p n n))
  · simp only [if_neg h]
    exact mod_mersenne_loop_modEq p n n

theorem mod_mersenne_lt (n p : ℕ) (hp : 1 ≤ p) :
    mod_mersenne n p < 2 ^ p - 1 := by
  rw [mod_mersenne]
  have hr := mod_mersenne_loop_lt p hp n n le_rfl
  by_cases h : mod_mersenne_loop p n n = 2 ^ p - 1
  · simp only [if_pos h]
    exact one_le_two_pow_sub_one p hp
  · simp only [if_neg h]
    omega

theorem mod_mersenne_of_lt (n p : ℕ) (h : n < 2 ^ p - 1) :
    mod_mersenne n p = n := by
  rw [mod_mersenne]
  have hloop : mod_mersenne_loop p n n = n := mod_mersenne_loop_of_lt p n n (by omega)
  rw [hloop, if_neg (by omega)]

/-- Claim C1: for every `n ≥ 0` and every exponent `p ≥ 1`, `mod_mersenne n p`
is congruent to `n` modulo `2^p - 1` and lies in the canonical range
`[0, 2^p - 2]`; moreover `mod_mersenne 0 p = 0` and any input already below
the modulus is returned unchanged. -/
theorem mod_mersenne_correct (n p : ℕ) (hp : 1 ≤ p) :
    mod_mersenne n p % (2 ^ p - 1) = n % (2 ^ p - 1) ∧
    mod_mersenne n p ≤ 2 ^ p - 2 ∧
    mod_mersenne 0 p = 0 ∧
    (n < 2 ^ p - 1 → mod_mersenne n p = n) := by
  refine ⟨mod_mersenne_modEq n p, ?_, ?_, fun h => mod_mersenne_of_lt n p h⟩
  · have := mod_mersenne_lt n p hp
    have := one_le_two_pow_sub_one p hp
    omega
  · exact mod_mersenne_of_lt 0 p (one_le_two_pow_sub_one p hp)

/-- Witness for C1 at `n = 5`, `p = 3`. -/
theorem mod_mersenne_correct_witness :
    1 ≤ 3 ∧
    (mod_mersenne 5 3 % (2 ^ 3 - 1) = 5 % (2 ^ 3 - 1) ∧
     mod_mersenne 5 3 ≤ 2 ^ 3 - 2 ∧
     mod_mersenne 0 3 = 0 ∧
     (5 < 2 ^ 3 - 1 → mod_mersenne 5 3 = 5)) :=
  ⟨by decide, mod_mersenne_correct 5 3 (by decide)⟩

theorem size_seven : Nat.size 7 = 3 :=
  le_antisymm (Nat.size_le.mpr (by norm_num)) (Nat.lt_size.mpr (by norm_num))

/-- Claim C5, counterexample: at `n = 7`, `p = 2` one splitting step of
`mod_mersenne` does not strictly decrease the bit length: `7` has bit length
`3 > 2`, and `split_step 7 2 = 4` still has bit length `3`. -/
theorem split_step_bitlength_not_strict :
    1 ≤ 2 ∧ 2 < Nat.size 7 ∧ ¬ Nat.size (split_step 7 2) < Nat.size 7 := by
  have h4 : split_step 7 2 = 4 := by decide
  have hs4 : Nat.size 4 = 3 :=
    le_antisymm (Nat.size_le.mpr (by norm_num)) (Nat.lt_size.mpr (by norm_num))
  refine ⟨by norm_num, ?_, ?_⟩
  · rw [size_seven]; norm_num
  · rw [h4, hs4, size_seven]; omega

/-- Claim C5, amended: for every `n ≥ 0` and `p ≥ 1` with `bit_length n > p`,
one splitting step strictly decreases the value `n` itself (which is what
makes the loop terminate), and the bit length never increases. -/
theorem split_step_decreases (n p : ℕ) (hp : 1 ≤ p) (h : p < Nat.size n) :
    split_step n p < n ∧ Nat.size (split_step n p) ≤ Nat.size n := by
  have h2 : 2 ^ p ≤ n := Nat.lt_size.mp h
  have hlt := split_step_lt n p hp h2
  exact ⟨hlt, Nat.size_le_size (le_of_lt hlt)⟩

/-- Witness for the amended C5 at `n = 7`, `p = 2`. -/
theorem split_step_decreases_witness :
    1 ≤ 2 ∧ 2 < Nat.size 7 ∧
    (split_step 7 2 < 7 ∧ Nat.size (split_step 7 2) ≤ Nat.size 7) :=
  ⟨by norm_num, by rw [size_seven]; norm_num,
   split_step_decreases 7 2 (by norm_num) (by rw [size_seven]; norm_num)⟩

theorem mod_mersenne_loop_fuel_succ (p : ℕ) (hp : 1 ≤ p) :
    ∀ fuel n, n ≤ fuel →
      mod_mersenne_loop p (fuel + 1) n = mod_mersenne_loop p fuel n := by
  intro fuel
  induction fuel with
  | zero =>
    intro n hn
    have : n = 0 := Nat.le_zero.mp hn
    subst this
    rw [mod_mersenne_loop_of_lt p _ 0 (Nat.pos_pow_of_pos p (by norm_num))]
    rfl
  | succ fuel ih =>
    intro n hn
    by_cases h : 2 ^ p ≤ n
    · rw [mod_mersenne_loop, if_pos h]
      conv_rhs => rw [mod_mersenne_loop, if_pos h]
      exact ih _ (by have := split_step_lt n p hp h; omega)
    · rw [mod_mersenne_loop, if_neg h, mod_mersenne_loop, if_neg h]

theorem mod_mersenne_loop_fuel_irrel (p n fuel : ℕ) (hp : 1 ≤ p) (hf : n ≤ fuel) :
    mod_mersenne_loop p fuel n = mod_mersenne_loop p n n := by
  induction fuel, hf using Nat.le_induction with
  | base => rfl
  | succ fuel hf ih => rw [mod_mersenne_loop_fuel_succ p hp fuel n hf, ih]

/-- Claim C6: for every `n ≥ 0` and `p ≥ 1` the splitting loop of
`mod_mersenne` terminates: fuel `n` suffices (any fuel of at least `n`
iterations gives the same final state), and the state it stops at has
bit length at most `p`. -/
theorem mod_mersenne_loop_terminates (p n fuel : ℕ) (hp : 1 ≤ p) (hf : n ≤ fuel) :
    Nat.size (mod_mersenne_loop p fuel n) ≤ p ∧
    mod_mersenne_loop p fuel n = mod_mersenne_loop p n n :=
  ⟨Nat.size_le.mpr (mod_mersenne_loop_lt p hp fuel n hf),
   mod_mersenne_loop_fuel_irrel p n fuel hp hf⟩

/-- Witness for C6 at `p = 1`, `n = 3`, fuel `5`. -/
theorem mod_mersenne_loop_terminates_witness :
    1 ≤ 1 ∧ 3 ≤ 5 ∧
    (Nat.size (mod_mersenne_loop 1 5 3) ≤ 1 ∧
     mod_mersenne_loop 1 5 3 = mod_mersenne_loop 1 3 3) :=
  ⟨by norm_num, by norm_num, mod_mersenne_loop_terminates 1 3 5 (by norm_num) (by norm_num)⟩

/-- Claim C8: for every `n ≥ 0` and `p ≥ 2`, `mod_mersenne` is idempotent. -/
theorem mod_mersenne_idempotent (n p : ℕ) (hp : 2 ≤ p) :
    mod_mersenne (mod_mersenne n p) p = mod_mersenne n p :=
  mod_mersenne_of_lt _ p (mod_mersenne_lt n p (by omega))

/-- Witness for C8 at `n = 100`, `p = 3`. -/
theorem mod_mersenne_idempotent_witness :
    2 ≤ 3 ∧ mod_mersenne (mod_mersenne 100 3) 3 = mod_mersenne 100 3 :=
  ⟨by norm_num, mod_mersenne_idempotent 100 3 (by norm_num)⟩

/-- One Lucas–Lehmer update from src/main.rs: `s = &s * &s - 2u32` followed by
`s = mod_mersenne(&s, p)`.  BigUint subtraction is truncated subtraction here;
the source's subtraction fails (panics) on underflow, i.e. exactly when
`s * s < 2`, which is what claim C10 is about. -/
def ll_step (p s : ℕ) : ℕ := mod_mersenne (s * s - 2) p

/-- First `k` iterations of the `for i in 1..=total_iterations` loop of
`is_mersenne_prime`, threading the state `s` (initialized to `4`) together
with the list of progress percentages printed so far: iteration `i` prints
`(i * 100) / total` when `verbose` holds and `i % interval = 0` or
`i = total`. -/
def ll_run (p total interval : ℕ) (verbose : Bool) : ℕ → ℕ × List ℕ
  | 0 => (4, [])
  | k + 1 =>
    let st := ll_run p total interval verbose k
    (ll_step p st.1,
     if verbose = true ∧ ((k + 1) % interval = 0 ∨ k + 1 = total)
       then st.2 ++ [((k + 1) * 100) / total]
       else st.2)

/-- Embedding of `is_mersenne_prime` from src/main.rs, keeping the verdict
together with the list of progress percentages printed (the observable
side channel gated by `verbose`). -/
def mersenne_test (p : ℕ) (verbose : Bool) : Bool × List ℕ :=
  if p < 2 then (false, [])
  else if p = 2 then (true, [])
  else
    let total_iterations := p - 2
    let progress_interval := max (total_iterations / 100) 1
    let r := ll_run p total_iterations progress_interval verbose total_iterations
    (r.1 == 0, r.2)

/-- The pure verdict of `is_mersenne_prime` from src/main.rs. -/
def is_mersenne_prime (p : ℕ) (verbose : Bool) : Bool :=
  (mersenne_test p verbose).1

/-- The Lucas–Lehmer sequence exactly as claim C2 words it: start at `4` and
iterate `s := mod_mersenne (s * s - 2) p`. -/
def ll_seq (p : ℕ) : ℕ → ℕ
  | 0 => 4
  | i + 1 => mod_mersenne (ll_seq p i * ll_seq p i - 2) p

theorem ll_run_fst (p total interval : ℕ) (v : Bool) :
    ∀ k, (ll_run p total interval v k).1 = ll_seq p k := by
  intro k
  induction k with
  | zero => rfl
  | succ k ih => rw [ll_run, ll_seq, ← ih]; rfl

/-- Claim C2: for every exponent `p > 2` (and either verbose flag),
`is_mersenne_prime` returns `true` exactly when the Lucas–Lehmer sequence —
started at `4` and iterated `p - 2` times through
`s := mod_mersenne (s * s - 2) p` — ends at `0`. -/
theorem is_mersenne_prime_iff_ll_seq (p : ℕ) (v : Bool) (hp : 2 < p) :
    (is_mersenne_prime p v = true ↔ ll_seq p (p - 2) = 0) := by
  rw [is_mersenne_prime, mersenne_test, if_neg (by omega), if_neg (by omega)]
  show ((ll_run p (p - 2) (max ((p - 2) / 100) 1) v (p - 2)).1 == 0) = true ↔ _
  rw [ll_run_fst, beq_iff_eq]

/-- Witness for C2 at `p = 3`, `verbose = false`. -/
theorem is_mersenne_prime_iff_ll_seq_witness :
    2 < 3 ∧ (is_mersenne_prime 3 false = true ↔ ll_seq 3 (3 - 2) = 0) :=
  ⟨by norm_num, is_mersenne_prime_iff_ll_seq 3 false (by norm_num)⟩

/-- Claim C3: `is_mersenne_prime` returns `true` for each exponent in
`{2, 3, 5, 7, 13, 17, 19, 31}` and `false` for each of `{11, 23, 29}`. -/
theorem is_mersenne_prime_known_values :
    (is_mersenne_prime 2 false = true ∧ is_mersenne_prime 3 false = true ∧
     is_mersenne_prime 5 false = true ∧ is_mersenne_prime 7 false = true ∧
     is_mersenne_prime 13 false = true ∧ is_mersenne_prime 17 false = true ∧
     is_mersenne_prime 19 false = true ∧ is_mersenne_prime 31 false = true) ∧
    (is_mersenne_prime 11 false = false ∧ is_mersenne_prime 23 false = false ∧
     is_mersenne_prime 29 false = false) := by
  set_option maxRecDepth 100000 in decide

/-- Claim C7: `is_mersenne_prime` returns `false` for every `p < 2` and `true`
for `p = 2`, in both cases without running the Lucas–Lehmer loop (the
progress trace is empty even when verbose). -/
theorem mersenne_test_base_cases (p : ℕ) (v : Bool) (hp : p < 2) :
    mersenne_test p v = (false, []) ∧ mersenne_test 2 v = (true, []) := by
  constructor
  · rw [mersenne_test, if_pos hp]
  · rw [mersenne_test, if_neg (by omega), if_pos rfl]

/-- Witness for C7 at `p = 0`, `verbose = true`. -/
theorem mersenne_test_base_cases_witness :
    0 < 2 ∧ (mersenne_test 0 true = (false, []) ∧ mersenne_test 2 true = (true, [])) :=
  ⟨by norm_num, mersenne_test_base_cases 0 true (by norm_num)⟩

/-- Claim C9: the verbose flag does not influence the verdict of
`is_mersenne_prime`; it gates only the progress side channel. -/
theorem is_mersenne_prime_verbose_irrelevant (p : ℕ) :
    is_mersenne_prime p true = is_mersenne_prime p false := by
  by_cases h2 : p < 2
  · rw [is_mersenne_prime, mersenne_test, if_pos h2,
        is_mersenne_prime, mersenne_test, if_pos h2]
  · by_cases h3 : p = 2
    · subst h3; rfl
    · rw [is_mersenne_prime, mersenne_test, if_neg h2, if_neg h3,
          is_mersenne_prime, mersenne_test, if_neg h2, if_neg h3]
      show ((ll_run p (p - 2) _ true (p - 2)).1 == 0) = ((ll_run p (p - 2) _ false (p - 2)).1 == 0)
      rw [ll_run_fst, ll_run_fst]

/-- The `while i * i <= n` trial-division loop of `is_prime` in src/main.rs,
with explicit fuel (fuel `n` is ample: `i` starts at `5` and grows by `6`
while `i * i ≤ n`).  Arithmetic here is exact; in the source `i * i` is a
`u64` product, which can overflow only once `i` exceeds `2^32` — see the
analysis of claim C4. -/
def is_prime_loop (n : ℕ) : ℕ → ℕ → Bool
  | 0, _ => true
  | fuel + 1, i =>
    if i * i ≤ n then
      if n % i = 0 ∨ n % (i + 2) = 0 then false
      else is_prime_loop n fuel (i + 6)
    else true

/-- Embedding of `is_prime` from src/main.rs: trial division by 2, 3 and the
numbers `6k ± 1`. -/
def is_prime (n : ℕ) : Bool :=
  if n ≤ 1 then false
  else if n ≤ 3 then true
  else if n % 2 = 0 ∨ n % 3 = 0 then false
  else is_prime_loop n n 5

theorem is_prime_loop_false (n : ℕ) :
    ∀ fuel i, 5 ≤ i → is_prime_loop n fuel i = false →
      ∃ m, m ∣ n ∧ 2 ≤ m ∧ m < n := by
  intro fuel
  induction fuel with
  | zero => intro i _ h; exact absurd h (by simp [is_prime_loop])
  | succ fuel ih =>
    intro i hi h
    rw [is_prime_loop] at h
    by_cases hguard : i * i ≤ n
    · rw [if_pos hguard] at h
      have hii : 5 * i ≤ i * i := Nat.mul_le_mul_right i hi
      by_cases hdiv : n % i = 0 ∨ n % (i + 2) = 0
      · rcases hdiv with hd | hd
        · exact ⟨i, Nat.dvd_of_mod_eq_zero hd, by omega, by omega⟩
        · exact ⟨i + 2, Nat.dvd_of_mod_eq_zero hd, by omega, by omega⟩
      · rw [if_neg hdiv] at h
        exact ih (i + 6) (by omega) h
    · rw [if_neg hguard] at h
      exact absurd h (by simp)

theorem is_prime_loop_found (n m : ℕ) (hdvd : m ∣ n) (hmm : m * m ≤ n)
    (hm6 : m % 6 = 1 ∨ m % 6 = 5) :
    ∀ fuel i, i % 6 = 5 → i ≤ m → m < i + 6 * fuel →
      is_prime_loop n fuel i = false := by
  intro fuel
  induction fuel with
  | zero => intro i _ him hlt; omega
  | succ fuel ih =>
    intro i hi5 him hlt
    have hguard : i * i ≤ n := le_trans (Nat.mul_le_mul him him) hmm
    rw [is_prime_loop, if_pos hguard]
    by_cases hdiv : n % i = 0 ∨ n % (i + 2) = 0
    · rw [if_pos hdiv]
    · rw [if_neg hdiv]
      have hm0 : 0 < m := by omega
      have hne1 : m ≠ i := by
        rintro rfl
        exact hdiv (Or.inl (Nat.mod_eq_zero_of_dvd hdvd))
      have hne2 : m ≠ i + 2 := by
        rintro h
        exact hdiv (Or.inr (Nat.mod_eq_zero_of_dvd (h ▸ hdvd)))
      exact ih (i + 6) (by omega) (by omega) (by omega)

theorem prime_factor_mod_six (m : ℕ) (hm : Nat.Prime m) (h2 : m ≠ 2) (h3 : m ≠ 3) :
    m % 6 = 1 ∨ m % 6 = 5 := by
  have hm2 : ¬ (2 ∣ m) := by
    intro h
    rcases (Nat.Prime.eq_one_or_self_of_dvd hm 2 h) with h' | h' <;> omega
  have hm3 : ¬ (3 ∣ m) := by
    intro h
    rcases (Nat.Prime.eq_one_or_self_of_dvd hm 3 h) with h' | h' <;> omega
  rw [Nat.dvd_iff_mod_eq_zero] at hm2 hm3
  omega

/-- Claim C4 (algorithmic part): the trial-division test `is_prime` agrees with
primality on every natural number, in particular on the whole `u64` range and
on `[0, 10000]`; `is_prime 0 = false`, `is_prime 1 = false`,
`is_prime 2 = true`, `is_prime 9 = false` are instances.  The `u64` product
`i * i` of the source is modelled exactly here; in the source it overflows for
prime inputs above `2^64 - 10·2^32 + 25` (see RESULTS for claim C4). -/
theorem is_prime_iff_prime : ∀ n : ℕ, is_prime n = true ↔ Nat.Prime n := by
  intro n
  rw [is_prime]
  by_cases h1 : n ≤ 1
  · rw [if_pos h1]
    constructor
    · intro h; exact absurd h (by simp)
    · intro hp; have := hp.two_le; omega
  · rw [if_neg h1]
    by_cases h3 : n ≤ 3
    · rw [if_pos h3]
      have : n = 2 ∨ n = 3 := by omega
      rcases this with rfl | rfl <;> simp [Nat.prime_two, Nat.prime_three]
    · rw [if_neg h3]
      by_cases h23 : n % 2 = 0 ∨ n % 3 = 0
      · rw [if_pos h23]
        constructor
        · intro h; exact absurd h (by simp)
        · intro hp
          rcases h23 with hd | hd
          · rcases hp.eq_one_or_self_of_dvd 2 (Nat.dvd_of_mod_eq_zero hd) with h' | h' <;> omega
          · rcases hp.eq_one_or_self_of_dvd 3 (Nat.dvd_of_mod_eq_zero hd) with h' | h' <;> omega
      · rw [if_neg h23]
        constructor
        · intro htrue
          by_contra hnp
          have hn0 : 0 < n := by omega
          set m := Nat.minFac n with hm
          have hmp : Nat.Prime m := Nat.minFac_prime (by omega)
          have hmd : m ∣ n := Nat.minFac_dvd n
          have hmm : m * m ≤ n := by
            have := Nat.minFac_sq_le_self hn0 hnp
            rwa [Nat.pow_two] at this
          have hm6 : m % 6 = 1 ∨ m % 6 = 5 := by
            refine prime_factor_mod_six m hmp ?_ ?_
            · rintro h; rw [h] at hmd
              exact absurd (Nat.mod_eq_zero_of_dvd hmd) (by omega)
            · rintro h; rw [h] at hmd
              exact absurd (Nat.mod_eq_zero_of_dvd hmd) (by omega)
          have hm5 : 5 ≤ m := by
            have h2 := hmp.two_le
            omega
          have hmn : m ≤ n := Nat.le_of_dvd hn0 hmd
          have := is_prime_loop_found n m hmd hmm hm6 n 5 (by norm_num) hm5 (by omega)
          rw [htrue] at this
          exact absurd this (by simp)
        · intro hp
          by_contra hfalse
          have hfalse' : is_prime_loop n n 5 = false := by
            cases h : is_prime_loop n n 5
            · rfl
            · exact absurd h hfalse
          obtain ⟨m, hmd, hm2, hmn⟩ := is_prime_loop_false n n 5 (by norm_num) hfalse'
          rcases hp.eq_one_or_self_of_dvd m hmd with h' | h' <;> omega

end Mersenne
